import Mathlib

/-!
Verification of the pdf-merger-bot utilities: a shallow embedding of
`src/merge_pdfs.py`, `src/pdf_annotator.py` and `src/pdf-reader-bot.py`,
with theorems settling the documented behavioural properties.

Conventions:
* Python strings are modelled as `List Char` (so that comparisons and
  suffix tests compute), Python floats as `ℚ`, page contents as opaque
  `ℕ` identifiers.
* Fallible or effectful steps are modelled by explicit result structures
  recording what was written and what was reported.
-/

/-! ## Merger (`src/merge_pdfs.py`)

`merge_pdfs` lists `INPUT_DIR.glob("*.pdf")` (files whose name ends in
`.pdf`), sorts them (Python `sorted`, i.e. lexicographic by codepoint on
the filename, stable), and appends every page of every file, in that
order, into one output document; with no matching files it prints a
report and returns without writing. -/

/-- One file of the input directory: its filename and its list of pages
(pages are opaque identifiers; a file's page count is the list length). -/
structure PdfFile where
  name : List Char
  pages : List Nat
deriving DecidableEq

/-- Python `str`/`Path` comparison on filenames: lexicographic by
codepoint, a strict prefix sorting first. -/
def nameLe : List Char → List Char → Bool
  | [], _ => true
  | _ :: _, [] => false
  | a :: as, b :: bs => if a = b then nameLe as bs else decide (a < b)

/-- Relation form of `nameLe` on directory entries. -/
def fileLe (a b : PdfFile) : Prop := nameLe a.name b.name = true

instance : DecidableRel fileLe := fun a b => by
  unfold fileLe; infer_instance

theorem nameLe_trans :
    ∀ a b c, nameLe a b = true → nameLe b c = true → nameLe a c = true := by
  intro a
  induction a with
  | nil => intro b c _ _; rfl
  | cons x xs ih =>
    intro b c hab hbc
    cases b with
    | nil => simp [nameLe] at hab
    | cons y ys =>
      cases c with
      | nil => simp [nameLe] at hbc
      | cons z zs =>
        simp only [nameLe] at hab hbc ⊢
        by_cases hxy : x = y
        · subst hxy
          simp only [if_pos rfl] at hab
          by_cases hxz : x = z
          · subst hxz
            simp only [if_pos rfl] at hbc ⊢
            exact ih ys zs hab hbc
          · simp only [if_neg hxz] at hbc ⊢
            exact hbc
        · simp only [if_neg hxy] at hab
          by_cases hyz : y = z
          · subst hyz
            simp only [if_neg hxy]
            exact hab
          · simp only [if_neg hyz] at hbc
            have hlt : x < z := lt_trans (of_decide_eq_true hab) (of_decide_eq_true hbc)
            have hxz : x ≠ z := ne_of_lt hlt
            simp only [if_neg hxz]
            exact decide_eq_true hlt

theorem nameLe_total : ∀ a b, nameLe a b = true ∨ nameLe b a = true := by
  intro a
  induction a with
  | nil => intro b; left; rfl
  | cons x xs ih =>
    intro b
    cases b with
    | nil => right; rfl
    | cons y ys =>
      by_cases hxy : x = y
      · subst hxy
        rcases ih ys with h | h
        · left; simpa [nameLe] using h
        · right; simpa [nameLe] using h
      · rcases lt_or_gt_of_ne hxy with h | h
        · left; simp [nameLe, if_neg hxy, h]
        · right; simp [nameLe, if_neg (Ne.symm hxy), h]

instance : IsTrans PdfFile fileLe :=
  ⟨fun a b c hab hbc => nameLe_trans a.name b.name c.name hab hbc⟩

instance : IsTotal PdfFile fileLe :=
  ⟨fun a b => nameLe_total a.name b.name⟩

/-- Suffix test `sub.isSuffixOfL l`: does `l` end with `sub`? (Bool, computable.) -/
def isSuffixOfL (sub l : List Char) : Bool := decide (sub <:+ l)

/-- Whether a filename matches the glob pattern `*.pdf`: `*` matches any
(possibly empty) character sequence, so the pattern matches exactly the
names ending in `.pdf`. -/
def hasPdfExt (n : List Char) : Bool := isSuffixOfL ['.', 'p', 'd', 'f'] n

/-- Python `sorted` on the globbed paths: a stable sort by filename. -/
def sortFiles (fs : List PdfFile) : List PdfFile := List.insertionSort fileLe fs

/-- Outcome of one `merge_pdfs` run: the output document written (if
any), and whether the "No PDF files found" report was printed. -/
structure MergeResult where
  written : Option (List Nat)
  reportedNoFiles : Bool
deriving DecidableEq

/-- Model of `merge_pdfs` (src/merge_pdfs.py:14-35): glob `*.pdf` in the input
directory, sort, and if no files were found report and return without
writing; otherwise append every file's pages in sorted order and write
the result. -/
def merge_pdfs (dir : List PdfFile) : MergeResult :=
  let pdf_files := sortFiles (dir.filter fun f => hasPdfExt f.name)
  if pdf_files.isEmpty then
    { written := none, reportedNoFiles := true }
  else
    { written := some (pdf_files.flatMap fun f => f.pages), reportedNoFiles := false }

theorem sortFiles_perm (fs : List PdfFile) : (sortFiles fs).Perm fs :=
  List.perm_insertionSort fileLe fs

theorem sortFiles_sorted (fs : List PdfFile) : (sortFiles fs).Sorted fileLe :=
  List.sorted_insertionSort fileLe fs

theorem sortFiles_eq_nil_iff (fs : List PdfFile) : sortFiles fs = [] ↔ fs = [] := by
  constructor
  · intro h
    have := (sortFiles_perm fs).length_eq
    rw [h] at this
    exact List.length_eq_zero.mp this.symm
  · intro h; subst h; rfl

theorem merge_pdfs_eq_neg (dir : List PdfFile)
    (h : dir.filter (fun f => hasPdfExt f.name) = []) :
    merge_pdfs dir = { written := none, reportedNoFiles := true } := by
  unfold merge_pdfs
  rw [h]
  rfl

theorem merge_pdfs_eq_pos (dir : List PdfFile)
    (h : dir.filter (fun f => hasPdfExt f.name) ≠ []) :
    merge_pdfs dir =
      { written := some ((sortFiles (dir.filter fun f => hasPdfExt f.name)).flatMap
          fun f => f.pages),
        reportedNoFiles := false } := by
  unfold merge_pdfs
  have hs : sortFiles (dir.filter fun f => hasPdfExt f.name) ≠ [] :=
    fun hc => h ((sortFiles_eq_nil_iff _).mp hc)
  rw [if_neg (by simpa [List.isEmpty_iff] using hs)]

/-- C1: `merge_pdfs` writes an output iff some directory entry matches
`*.pdf`; the written document is the concatenation, in lexicographic
filename order, of the pages of the matching files, so its page count is
the sum of their page counts; with no matching file it reports and
writes nothing. -/
theorem merge_pdfs_correct (dir : List PdfFile) :
    ((merge_pdfs dir).written.isSome ↔ ∃ f ∈ dir, hasPdfExt f.name = true)
    ∧ (∀ out, (merge_pdfs dir).written = some out →
        out = (sortFiles (dir.filter fun f => hasPdfExt f.name)).flatMap (fun f => f.pages)
        ∧ (sortFiles (dir.filter fun f => hasPdfExt f.name)).Sorted fileLe
        ∧ (sortFiles (dir.filter fun f => hasPdfExt f.name)).Perm
            (dir.filter fun f => hasPdfExt f.name)
        ∧ out.length
            = ((dir.filter fun f => hasPdfExt f.name).map fun f => f.pages.length).sum)
    ∧ ((¬ ∃ f ∈ dir, hasPdfExt f.name = true) →
        (merge_pdfs dir).written = none ∧ (merge_pdfs dir).reportedNoFiles = true) := by
  have hmem : (∃ f ∈ dir, hasPdfExt f.name = true)
      ↔ dir.filter (fun f => hasPdfExt f.name) ≠ [] := by
    rw [Ne, List.filter_eq_nil_iff]
    push_neg
    simp
  refine ⟨?_, ?_, ?_⟩
  · rw [hmem]
    by_cases h : dir.filter (fun f => hasPdfExt f.name) = []
    · simp [merge_pdfs_eq_neg dir h, h]
    · simp [merge_pdfs_eq_pos dir h, h]
  · intro out hout
    by_cases h : dir.filter (fun f => hasPdfExt f.name) = []
    · rw [merge_pdfs_eq_neg dir h] at hout
      exact absurd hout (by simp)
    · rw [merge_pdfs_eq_pos dir h] at hout
      simp only [Option.some.injEq] at hout
      refine ⟨hout.symm, sortFiles_sorted _, sortFiles_perm _, ?_⟩
      rw [← hout, List.length_flatMap]
      have hperm : ((sortFiles (dir.filter fun f => hasPdfExt f.name)).map
            fun f => f.pages.length).Perm
          ((dir.filter fun f => hasPdfExt f.name).map fun f => f.pages.length) :=
        (sortFiles_perm _).map _
      simpa using hperm.sum_eq
  · intro hnone
    have hnil : dir.filter (fun f => hasPdfExt f.name) = [] := by
      by_contra hc
      exact hnone (hmem.mpr hc)
    rw [merge_pdfs_eq_neg dir hnil]
    exact ⟨rfl, rfl⟩

/-- A concrete directory listing: two PDF files given out of name order,
plus one non-PDF file that the glob must skip. -/
def demoDir : List PdfFile :=
  [⟨['b', '.', 'p', 'd', 'f'], [10, 11]⟩,
   ⟨['a', '.', 'p', 'd', 'f'], [20]⟩,
   ⟨['n', 'o', 't', 'e', 's', '.', 't', 'x', 't'], [1]⟩]

/-- C1 witness: on `demoDir` the theorem yields the merged document
`[20, 10, 11]` (pages of `a.pdf` then of `b.pdf`) of page count 3. -/
theorem merge_pdfs_correct_witness :
    (merge_pdfs demoDir).written = some [20, 10, 11]
    ∧ (merge_pdfs demoDir).written.isSome
    ∧ [20, 10, 11].length
        = ((demoDir.filter fun f => hasPdfExt f.name).map fun f => f.pages.length).sum := by
  have h := merge_pdfs_correct demoDir
  have hw : (merge_pdfs demoDir).written = some [20, 10, 11] := by decide
  exact ⟨hw, h.1.mpr (by decide), (h.2.1 [20, 10, 11] hw).2.2.2⟩

/-! ## Annotator (`src/pdf_annotator.py`)

Canvas coordinates and zoom factors are Python floats, modelled as `ℚ`.
Ink annots are point lists in document coordinates; a highlight is a
pair of corner points. -/

/-- Model of `_canvas_to_pdf` (src/pdf_annotator.py:170-176): canvas coords to
PDF coords, dividing by the current zoom. -/
def canvas_to_pdf (z x y : ℚ) : ℚ × ℚ := (x / z, y / z)

/-- C2: for zoom `Z ≠ 0`, the mapping sends screen `(x, y)` to document
`(x/Z, y/Z)`; scaling the result back by `Z` recovers the screen point. -/
theorem canvas_to_pdf_maps (z x y : ℚ) (hz : z ≠ 0) :
    canvas_to_pdf z x y = (x / z, y / z)
    ∧ (canvas_to_pdf z x y).1 * z = x
    ∧ (canvas_to_pdf z x y).2 * z = y :=
  ⟨rfl, div_mul_cancel₀ x hz, div_mul_cancel₀ y hz⟩

/-- C2 witness: zoom 2 sends screen `(6, 10)` to document `(3, 5)`. -/
theorem canvas_to_pdf_maps_witness :
    canvas_to_pdf 2 6 10 = (6 / 2, 10 / 2)
    ∧ (canvas_to_pdf 2 6 10).1 * 2 = 6
    ∧ (canvas_to_pdf 2 6 10).2 * 2 = 10
    ∧ canvas_to_pdf 2 6 10 = (3, 5) :=
  ⟨(canvas_to_pdf_maps 2 6 10 two_ne_zero).1,
   (canvas_to_pdf_maps 2 6 10 two_ne_zero).2.1,
   (canvas_to_pdf_maps 2 6 10 two_ne_zero).2.2,
   by norm_num [canvas_to_pdf]⟩

/-- The draw-tool state: `_current_stroke_points`, `_last_draw_point`,
and the ink annots committed to the current page so far (each one a
point list in document coordinates). -/
structure DrawState where
  strokePoints : List (ℚ × ℚ)
  lastPoint : Option (ℚ × ℚ)
  annots : List (List (ℚ × ℚ))

/-- Model of `on_mouse_down`, draw branch (src/pdf_annotator.py:188-190): reset
the stroke to the single pressed point. -/
def on_mouse_down_draw (p : ℚ × ℚ) (s : DrawState) : DrawState :=
  { s with strokePoints := [p], lastPoint := some p }

/-- Model of `on_mouse_drag`, draw branch (src/pdf_annotator.py:216-227): if a
last point exists, append the dragged point and advance the last point
(the canvas line drawn there is transient preview only). -/
def on_mouse_drag_draw (p : ℚ × ℚ) (s : DrawState) : DrawState :=
  match s.lastPoint with
  | none => s
  | some _ => { s with strokePoints := s.strokePoints ++ [p], lastPoint := some p }

/-- Model of `_finalize_draw_stroke` (src/pdf_annotator.py:314-335): with fewer
than two recorded points, return without committing; otherwise commit
one ink annot holding every recorded point mapped by `_canvas_to_pdf`,
then clear the stroke buffer. -/
def finalize_draw_stroke (z : ℚ) (s : DrawState) : DrawState :=
  if s.strokePoints.length < 2 then s
  else
    { s with
      annots := s.annots ++ [s.strokePoints.map fun q => canvas_to_pdf z q.1 q.2],
      strokePoints := [] }

/-- Model of `on_mouse_up`, draw branch (src/pdf_annotator.py:241-244): finalize
the stroke and reset `_last_draw_point`. -/
def on_mouse_up_draw (z : ℚ) (s : DrawState) : DrawState :=
  { finalize_draw_stroke z s with lastPoint := none }

/-- One full draw interaction: pointer-down at `start`, a drag for each
point of `drags`, then pointer-up at the current zoom `z`. -/
def drawInteraction (z : ℚ) (start : ℚ × ℚ) (drags : List (ℚ × ℚ))
    (s : DrawState) : DrawState :=
  on_mouse_up_draw z (drags.foldl (fun st p => on_mouse_drag_draw p st)
    (on_mouse_down_draw start s))

theorem drag_foldl_accum (drags : List (ℚ × ℚ)) :
    ∀ (pts : List (ℚ × ℚ)) (p : ℚ × ℚ) (ann : List (List (ℚ × ℚ))),
      ∃ p', drags.foldl (fun st q => on_mouse_drag_draw q st) ⟨pts, some p, ann⟩
        = ⟨pts ++ drags, some p', ann⟩ := by
  induction drags with
  | nil => intro pts p ann; exact ⟨p, by simp⟩
  | cons q qs ih =>
    intro pts p ann
    obtain ⟨p', hp'⟩ := ih (pts ++ [q]) q ann
    exact ⟨p', by simpa [on_mouse_drag_draw] using hp'⟩

/-- C3: a draw interaction records `start :: drags`; with fewer than two
recorded points (no drag) it commits no ink annot, and with two or more
it commits exactly one, holding all recorded points in order, each
divided by the current zoom. -/
theorem draw_stroke_commit (z : ℚ) (start : ℚ × ℚ) (drags : List (ℚ × ℚ))
    (s : DrawState) :
    ((start :: drags).length < 2 → (drawInteraction z start drags s).annots = s.annots)
    ∧ (2 ≤ (start :: drags).length →
        (drawInteraction z start drags s).annots
          = s.annots ++ [(start :: drags).map fun q => canvas_to_pdf z q.1 q.2]) := by
  obtain ⟨p', hp'⟩ := drag_foldl_accum drags [start] start s.annots
  have hrun : drawInteraction z start drags s
      = on_mouse_up_draw z ⟨start :: drags, some p', s.annots⟩ := by
    unfold drawInteraction on_mouse_down_draw
    rw [hp']
    simp
  constructor
  · intro hlt
    have hnil : drags = [] := by
      cases drags with
      | nil => rfl
      | cons a as => simp only [List.length_cons] at hlt; omega
    subst hnil
    simp [hrun, on_mouse_up_draw, finalize_draw_stroke]
  · intro hge
    have hlen : ¬ (drags.length + 1 < 2) := by
      simp only [List.length_cons] at hge; omega
    simp [hrun, on_mouse_up_draw, finalize_draw_stroke, hlen]

/-- C3 witness: at zoom 2, a click with no drag commits nothing, and a
click at `(2, 4)` dragged to `(6, 8)` commits the single ink annot
`[(1, 2), (3, 4)]`. -/
theorem draw_stroke_commit_witness :
    (drawInteraction 2 (2, 4) [] ⟨[], none, []⟩).annots = []
    ∧ (drawInteraction 2 (2, 4) [(6, 8)] ⟨[], none, []⟩).annots
        = [] ++ [[((2 : ℚ), (4 : ℚ)), (6, 8)].map fun q => canvas_to_pdf 2 q.1 q.2]
    ∧ [((2 : ℚ), (4 : ℚ)), (6, 8)].map (fun q => canvas_to_pdf 2 q.1 q.2)
        = [(1, 2), (3, 4)] :=
  ⟨(draw_stroke_commit 2 (2, 4) [] ⟨[], none, []⟩).1 (by simp),
   (draw_stroke_commit 2 (2, 4) [(6, 8)] ⟨[], none, []⟩).2 (by simp),
   by norm_num [canvas_to_pdf]⟩

/-- Model of `_add_highlight_rect` (src/pdf_annotator.py:261-276): normalize the
two dragged corners with `sorted` per axis (min/max), then map both
normalized corners to PDF coordinates; the committed highlight rectangle
is that pair of document-coordinate corners. -/
def add_highlight_rect (z x0 y0 x1 y1 : ℚ) : (ℚ × ℚ) × (ℚ × ℚ) :=
  let left := min x0 x1
  let right := max x0 x1
  let top := min y0 y1
  let bottom := max y0 y1
  (canvas_to_pdf z left top, canvas_to_pdf z right bottom)

/-- A highlight interaction: pointer-down at `(x0, y0)` records the drag
start, pointer-up at `(x1, y1)` commits via `_add_highlight_rect`
(src/pdf_annotator.py:192-197 and 246-257). -/
def highlightInteraction (z : ℚ) (start fin : ℚ × ℚ) : (ℚ × ℚ) × (ℚ × ℚ) :=
  add_highlight_rect z start.1 start.2 fin.1 fin.2

/-- C4: committing a highlight dragged from `(x0, y0)` to `(x1, y1)`
stores the same document rectangle as dragging from `(x1, y1)` to
`(x0, y0)`; the stored corners are the per-axis min and max, mapped to
document coordinates. -/
theorem highlight_commit_symmetric (z x0 y0 x1 y1 : ℚ) :
    highlightInteraction z (x0, y0) (x1, y1) = highlightInteraction z (x1, y1) (x0, y0)
    ∧ highlightInteraction z (x0, y0) (x1, y1)
        = (canvas_to_pdf z (min x0 x1) (min y0 y1),
           canvas_to_pdf z (max x0 x1) (max y0 y1)) := by
  constructor
  · unfold highlightInteraction add_highlight_rect
    rw [min_comm x1 x0, max_comm x1 x0, min_comm y1 y0, max_comm y1 y0]
  · rfl

/-! Page navigation. -/

/-- The clamp applied by `_render_page` (src/pdf_annotator.py:128):
`max(0, min(index, page_count - 1))`; the rendered page is always this
clamped index. -/
def clamp_page_index (pc i : ℤ) : ℤ := max 0 (min i (pc - 1))

/-- Model of `prev_page` (src/pdf_annotator.py:147-151): decrement then
re-render, which clamps. Returns the rendered index. -/
def prev_page (pc i : ℤ) : ℤ := clamp_page_index pc (i - 1)

/-- Model of `next_page` (src/pdf_annotator.py:153-157): increment then
re-render, which clamps. Returns the rendered index. -/
def next_page (pc i : ℤ) : ℤ := clamp_page_index pc (i + 1)

inductive NavEvent where
  | prev
  | next
deriving DecidableEq

def navStep (pc i : ℤ) : NavEvent → ℤ
  | .prev => prev_page pc i
  | .next => next_page pc i

/-- A sequence of prev/next presses starting from rendered index `i`. -/
def navigate (pc i : ℤ) (es : List NavEvent) : ℤ := es.foldl (navStep pc) i

theorem navStep_bounds (pc i : ℤ) (hpc : 1 ≤ pc) (e : NavEvent) :
    0 ≤ navStep pc i e ∧ navStep pc i e ≤ pc - 1 := by
  cases e <;> simp [navStep, prev_page, next_page, clamp_page_index] <;> omega

/-- C9: with at least one page, every prev/next press renders an index
in `[0, pageCount - 1]` (so any nonempty press sequence does); prev on
the first page keeps rendering page 0, and next on the last page keeps
rendering page `pageCount - 1`. -/
theorem navigation_clamped (pc i : ℤ) (es : List NavEvent) (hpc : 1 ≤ pc)
    (hes : es ≠ []) :
    (0 ≤ navigate pc i es ∧ navigate pc i es ≤ pc - 1)
    ∧ prev_page pc 0 = 0
    ∧ next_page pc (pc - 1) = pc - 1 := by
  refine ⟨?_, ?_, ?_⟩
  · induction es using List.reverseRecOn with
    | nil => exact absurd rfl hes
    | append_singleton es' e _ =>
      unfold navigate
      rw [List.foldl_append]
      exact navStep_bounds pc _ hpc e
  · unfold prev_page clamp_page_index
    omega
  · unfold next_page clamp_page_index
    omega

/-- C9 witness: a 3-page document, pressing next four times from page 0
renders page 2 (clamped), and the boundary presses are no-ops. -/
theorem navigation_clamped_witness :
    (0 ≤ navigate 3 0 [.next, .next, .next, .next]
      ∧ navigate 3 0 [.next, .next, .next, .next] ≤ 3 - 1)
    ∧ prev_page 3 0 = 0
    ∧ next_page 3 (3 - 1) = 3 - 1
    ∧ navigate 3 0 [.next, .next, .next, .next] = 2 :=
  ⟨(navigation_clamped 3 0 [.next, .next, .next, .next] (by decide) (by decide)).1,
   (navigation_clamped 3 0 [.next, .next, .next, .next] (by decide) (by decide)).2.1,
   (navigation_clamped 3 0 [.next, .next, .next, .next] (by decide) (by decide)).2.2,
   by decide⟩

/-! Saving. -/

/-- How the underlying `fitz.Document.save` call turns out: it either
succeeds, writing the whole serialized document, or raises after having
written the first `k` items of the output to the chosen path. The
source (src/pdf_annotator.py:354-359) calls `self.doc.save(out_path)`
directly — no temporary file, rename, or cleanup — so whatever the
failed write left on disk stays there. -/
inductive SaveOutcome where
  | success
  | failAfter (k : ℕ)
deriving DecidableEq

/-- Observable result of one `save_as` run: the bytes of the output file
(if one exists afterwards), which dialog was shown, and whether the
handler let an exception escape (crash). -/
structure SaveResult where
  file : Option (List ℕ)
  infoShown : Bool
  errorShown : Bool
  crashed : Bool
deriving DecidableEq

/-- Model of `save_as` (src/pdf_annotator.py:339-359): with no open document,
show "Nothing to save" and return; with the save dialog cancelled,
return silently; otherwise call `doc.save(out_path)` inside
`try/except`, showing an info box on success and an error box on
failure, never letting the exception escape. -/
def save_as (doc : Option (List ℕ)) (chosen : Option (List Char))
    (outcome : SaveOutcome) : SaveResult :=
  match doc with
  | none => { file := none, infoShown := true, errorShown := false, crashed := false }
  | some d =>
    match chosen with
    | none => { file := none, infoShown := false, errorShown := false, crashed := false }
    | some _ =>
      match outcome with
      | .success => { file := some d, infoShown := true, errorShown := false, crashed := false }
      | .failAfter k =>
          { file := some (d.take k), infoShown := false, errorShown := true, crashed := false }

/-- C5 counterexample: saving the document `[1, 2, 3]` when the write
fails after one item leaves the partial file `[1]` behind — nonempty and
not the full document — refuting "no partial output file is left behind
when the write fails partway". -/
theorem save_as_partial_file_counterexample :
    (save_as (some [1, 2, 3]) (some ['o']) (.failAfter 1)).file = some [1]
    ∧ (save_as (some [1, 2, 3]) (some ['o']) (.failAfter 1)).file ≠ none
    ∧ (save_as (some [1, 2, 3]) (some ['o']) (.failAfter 1)).file ≠ some [1, 2, 3] := by
  decide

/-- C5 (amended): on success the entire in-memory document is written to
the chosen file; a failed save is reported with an error box and never
crashes the session — but a write that fails after `k` items leaves that
partial prefix behind, since the handler performs no cleanup or atomic
replacement. -/
theorem save_as_behavior (d : List ℕ) (p : List Char) :
    ((save_as (some d) (some p) .success).file = some d
      ∧ (save_as (some d) (some p) .success).infoShown = true
      ∧ (save_as (some d) (some p) .success).crashed = false)
    ∧ (∀ k, (save_as (some d) (some p) (.failAfter k)).errorShown = true
        ∧ (save_as (some d) (some p) (.failAfter k)).crashed = false
        ∧ (save_as (some d) (some p) (.failAfter k)).file = some (d.take k)) := by
  exact ⟨⟨rfl, rfl, rfl⟩, fun k => ⟨rfl, rfl, rfl⟩⟩

/-! ## Speech reader (`src/pdf-reader-bot.py`)

Page text is a `List Char`; `page.extract_text()` yields `Option (List
Char)` (`none` for pages with no extractable text). Python's
`text.split()` (split on whitespace runs, dropping empty fields),
`" ".join(...)` and `str.strip()` are modelled below; `Char.isWhitespace`
stands for Python's whitespace class. -/

/-- Accumulator pass of Python `str.split()`: walk the characters,
gathering the current word (reversed) in `acc`; whitespace closes the
word, and words are emitted without any empty fields. -/
def splitWsAux : List Char → List Char → List (List Char)
  | [], acc => if acc = [] then [] else [acc.reverse]
  | c :: cs, acc =>
    if c.isWhitespace = true then
      if acc = [] then splitWsAux cs [] else acc.reverse :: splitWsAux cs []
    else
      splitWsAux cs (c :: acc)

/-- Python `text.split()` with no separator argument. -/
def pySplit (l : List Char) : List (List Char) := splitWsAux l []

/-- Model of Python `" ".join(tokens)`. -/
def joinSp : List (List Char) → List Char
  | [] => []
  | [t] => t
  | t :: t' :: ts => t ++ ' ' :: joinSp (t' :: ts)

/-- The cleanup `" ".join(text.split())` (src/pdf-reader-bot.py:114):
collapse every whitespace run to one single space. -/
def collapseWs (l : List Char) : List Char := joinSp (pySplit l)

/-- Python `str.strip()`: drop whitespace from both ends. -/
def pyStrip (l : List Char) : List Char :=
  ((l.dropWhile (·.isWhitespace)).reverse.dropWhile (·.isWhitespace)).reverse

/-- A word produced by `split()`: nonempty and whitespace-free. -/
def goodToken (t : List Char) : Prop := t ≠ [] ∧ ∀ c ∈ t, c.isWhitespace = false

theorem splitWsAux_good :
    ∀ (l acc : List Char), (∀ c ∈ acc, c.isWhitespace = false) →
      ∀ t ∈ splitWsAux l acc, goodToken t := by
  intro l
  induction l with
  | nil =>
    intro acc hacc t ht
    simp only [splitWsAux] at ht
    by_cases h : acc = []
    · simp [h] at ht
    · rw [if_neg h] at ht
      simp only [List.mem_singleton] at ht
      subst ht
      refine ⟨by simpa using h, ?_⟩
      intro c hc
      exact hacc c (List.mem_reverse.mp hc)
  | cons c cs ih =>
    intro acc hacc t ht
    simp only [splitWsAux] at ht
    by_cases hw : c.isWhitespace = true
    · rw [if_pos hw] at ht
      by_cases h : acc = []
      · rw [if_pos h] at ht
        exact ih [] (by simp) t ht
      · rw [if_neg h] at ht
        rcases List.mem_cons.mp ht with h1 | h1
        · subst h1
          refine ⟨by simpa using h, ?_⟩
          intro d hd
          exact hacc d (List.mem_reverse.mp hd)
        · exact ih [] (by simp) t h1
    · rw [if_neg hw] at ht
      refine ih (c :: acc) ?_ t ht
      intro d hd
      rcases List.mem_cons.mp hd with h1 | h1
      · subst h1; exact Bool.eq_false_iff.mpr hw
      · exact hacc d h1

theorem splitWsAux_eq_nil_iff :
    ∀ (l acc : List Char),
      splitWsAux l acc = [] ↔ (acc = [] ∧ ∀ c ∈ l, c.isWhitespace = true) := by
  intro l
  induction l with
  | nil =>
    intro acc
    simp only [splitWsAux]
    by_cases h : acc = [] <;> simp [h]
  | cons c cs ih =>
    intro acc
    simp only [splitWsAux]
    by_cases hw : c.isWhitespace = true
    · rw [if_pos hw]
      by_cases h : acc = []
      · rw [if_pos h, ih]
        simp [h, hw]
      · simp only [if_neg h]
        simp [h, hw]
    · rw [if_neg hw, ih]
      constructor
      · rintro ⟨hc, -⟩
        simp at hc
      · rintro ⟨-, hall⟩
        exact absurd (hall c (by simp)) hw

theorem pySplit_good (l : List Char) : ∀ t ∈ pySplit l, goodToken t :=
  splitWsAux_good l [] (by simp)

theorem pySplit_eq_nil_iff (l : List Char) :
    pySplit l = [] ↔ ∀ c ∈ l, c.isWhitespace = true := by
  unfold pySplit
  rw [splitWsAux_eq_nil_iff]
  simp

theorem joinSp_head :
    ∀ ts, (∀ t ∈ ts, goodToken t) → ts ≠ [] →
      ∃ c cs, joinSp ts = c :: cs ∧ c.isWhitespace = false := by
  intro ts hts hne
  cases ts with
  | nil => exact absurd rfl hne
  | cons t ts' =>
    obtain ⟨htne, htws⟩ := hts t (by simp)
    cases t with
    | nil => exact absurd rfl htne
    | cons c tcs =>
      cases ts' with
      | nil => exact ⟨c, tcs, rfl, htws c (by simp)⟩
      | cons t' tsr =>
        exact ⟨c, tcs ++ ' ' :: joinSp (t' :: tsr), rfl, htws c (by simp)⟩

/-- Fully collapsed whitespace: every whitespace character is a plain
single space, and no two adjacent characters are both whitespace. -/
def spaceNormal (s : List Char) : Prop :=
  (∀ c ∈ s, c.isWhitespace = true → c = ' ')
  ∧ List.Chain' (fun a b => ¬(a.isWhitespace = true ∧ b.isWhitespace = true)) s

theorem chain_of_ws_free (t : List Char) (h : ∀ c ∈ t, c.isWhitespace = false) :
    List.Chain' (fun a b => ¬(a.isWhitespace = true ∧ b.isWhitespace = true)) t := by
  refine (List.pairwise_of_forall_mem_list ?_).chain'
  intro a ha b _ hab
  exact absurd hab.1 (by simp [h a ha])

theorem joinSp_spaceNormal :
    ∀ ts, (∀ t ∈ ts, goodToken t) → spaceNormal (joinSp ts) := by
  intro ts
  induction ts with
  | nil => exact fun _ => ⟨by simp [joinSp], by simp [joinSp]⟩
  | cons t ts' ih =>
    intro hts
    obtain ⟨htne, htws⟩ := hts t (by simp)
    cases ts' with
    | nil =>
      refine ⟨?_, chain_of_ws_free t htws⟩
      intro c hc hcw
      exact absurd hcw (by simp [htws c (by simpa [joinSp] using hc)])
    | cons t' tsr =>
      have hts' : ∀ u ∈ t' :: tsr, goodToken u := fun u hu => hts u (by simp [hu])
      obtain ⟨hnorm', hchain'⟩ := ih hts'
      obtain ⟨hd, tl, hjoin, hdws⟩ := joinSp_head (t' :: tsr) hts' (by simp)
      constructor
      · intro c hc hcw
        simp only [joinSp, List.mem_append, List.mem_cons] at hc
        rcases hc with hc | hc | hc
        · exact absurd hcw (by simp [htws c hc])
        · exact hc
        · exact hnorm' c hc hcw
      · show List.Chain' _ (t ++ ' ' :: joinSp (t' :: tsr))
        rw [List.chain'_append]
        refine ⟨chain_of_ws_free t htws, ?_, ?_⟩
        · rw [List.chain'_cons']
          refine ⟨?_, hchain'⟩
          intro y hy
          rw [hjoin] at hy
          simp only [List.head?_cons, Option.mem_def, Option.some.injEq] at hy
          subst hy
          intro hcon
          exact absurd hcon.2 (by simp [hdws])
        · intro x hx y _
          have hxt : x ∈ t := List.mem_of_mem_getLast? hx
          intro hcon
          exact absurd hcon.1 (by simp [htws x hxt])

theorem collapseWs_spaceNormal (l : List Char) : spaceNormal (collapseWs l) :=
  joinSp_spaceNormal (pySplit l) (pySplit_good l)

theorem mem_dropWhile_of_neg {p : Char → Bool} {l : List Char} {c : Char}
    (hc : c ∈ l) (hp : p c = false) : c ∈ l.dropWhile p := by
  have hsplit := List.takeWhile_append_dropWhile p l
  rw [← hsplit] at hc
  rcases List.mem_append.mp hc with h | h
  · exact absurd (List.mem_takeWhile_imp h) (by simp [hp])
  · exact h

theorem pyStrip_eq_nil_iff (l : List Char) :
    pyStrip l = [] ↔ ∀ c ∈ l, c.isWhitespace = true := by
  unfold pyStrip
  constructor
  · intro h c hc
    by_contra hcw
    have hcw' : c.isWhitespace = false := by simpa using hcw
    have h1 : c ∈ l.dropWhile (·.isWhitespace) := mem_dropWhile_of_neg hc hcw'
    have h2 : c ∈ (l.dropWhile (·.isWhitespace)).reverse := List.mem_reverse.mpr h1
    have h3 : c ∈ (l.dropWhile (·.isWhitespace)).reverse.dropWhile (·.isWhitespace) :=
      mem_dropWhile_of_neg h2 hcw'
    have hX : (l.dropWhile (·.isWhitespace)).reverse.dropWhile (·.isWhitespace) = [] :=
      List.reverse_eq_nil_iff.mp h
    rw [hX] at h3
    exact absurd h3 (List.not_mem_nil c)
  · intro h
    have h1 : l.dropWhile (·.isWhitespace) = [] :=
      List.dropWhile_eq_nil_iff.mpr fun x hx => h x hx
    rw [h1]
    simp

theorem pyStrip_collapseWs_eq_nil_iff (l : List Char) :
    pyStrip (collapseWs l) = [] ↔ ∀ c ∈ l, c.isWhitespace = true := by
  constructor
  · intro h
    by_contra hall
    push_neg at hall
    obtain ⟨c, hc, hcw⟩ := hall
    have hsplit : pySplit l ≠ [] := by
      rw [Ne, pySplit_eq_nil_iff]
      push_neg
      exact ⟨c, hc, hcw⟩
    obtain ⟨d, ds, hjoin, hdws⟩ := joinSp_head (pySplit l) (pySplit_good l) hsplit
    have hd : d ∈ collapseWs l := by
      unfold collapseWs
      rw [hjoin]
      simp
    have := (pyStrip_eq_nil_iff (collapseWs l)).mp h d hd
    simp [hdws] at this
  · intro h
    have : pySplit l = [] := (pySplit_eq_nil_iff l).mpr h
    unfold collapseWs
    rw [this]
    rfl

/-- The page loop of `extract_text_from_pdf`
(src/pdf-reader-bot.py:104-118), carrying the 1-based page counter `i`:
a page with no extractable text (`none` or the empty string) is skipped
with a diagnostic; otherwise the text is collapsed, and kept only if its
`strip()` is nonempty (truthy). -/
def extractAux : Nat → List (Option (List Char)) → List (Nat × List Char)
  | _, [] => []
  | i, none :: rest => extractAux (i + 1) rest
  | i, some t :: rest =>
    if t = [] then extractAux (i + 1) rest
    else
      if pyStrip (collapseWs t) = [] then extractAux (i + 1) rest
      else (i, collapseWs t) :: extractAux (i + 1) rest

/-- Model of `extract_text_from_pdf` (src/pdf-reader-bot.py:99-118): the list of
`(page_number, cleaned_text)` pairs, page numbers starting at 1. -/
def extract_text_from_pdf (pages : List (Option (List Char))) : List (Nat × List Char) :=
  extractAux 1 pages

/-- The diagnostic prints of the same loop
(src/pdf-reader-bot.py:109-110): the `[info] Page i has no extractable
text` line is printed exactly for the pages whose raw text is falsy
(`None` or the empty string). A whitespace-only nonempty text is truthy,
so it passes this check and is instead dropped silently by the
`cleaned_text.strip()` test at lines 115-116, with no print. -/
def extractDiagAux : Nat → List (Option (List Char)) → List Nat
  | _, [] => []
  | i, none :: rest => i :: extractDiagAux (i + 1) rest
  | i, some t :: rest =>
    if t = [] then i :: extractDiagAux (i + 1) rest
    else extractDiagAux (i + 1) rest

/-- The page numbers for which `extract_text_from_pdf` prints its
no-extractable-text diagnostic. -/
def extract_text_diagnostics (pages : List (Option (List Char))) : List Nat :=
  extractDiagAux 1 pages

theorem extractAux_mem :
    ∀ (pages : List (Option (List Char))) (i n : Nat) (s : List Char),
      (n, s) ∈ extractAux i pages ↔
        ∃ k t, pages[k]? = some (some t) ∧ n = i + k
          ∧ (∃ c ∈ t, c.isWhitespace = false) ∧ s = collapseWs t := by
  intro pages
  induction pages with
  | nil => intro i n s; simp [extractAux]
  | cons pg rest ih =>
    intro i n s
    cases pg with
    | none =>
      simp only [extractAux]
      rw [ih (i + 1)]
      constructor
      · rintro ⟨k, t, hk, hn, hw, hs⟩
        exact ⟨k + 1, t, by simpa using hk, by omega, hw, hs⟩
      · rintro ⟨k, t, hk, hn, hw, hs⟩
        cases k with
        | zero => simp at hk
        | succ k' => exact ⟨k', t, by simpa using hk, by omega, hw, hs⟩
    | some t0 =>
      by_cases hemp : t0 = []
      · subst hemp
        have hstep : extractAux i (some [] :: rest) = extractAux (i + 1) rest := by
          simp [extractAux]
        rw [hstep, ih (i + 1)]
        constructor
        · rintro ⟨k, t, hk, hn, hw, hs⟩
          exact ⟨k + 1, t, by simpa using hk, by omega, hw, hs⟩
        · rintro ⟨k, t, hk, hn, hw, hs⟩
          cases k with
          | zero =>
            simp only [List.getElem?_cons_zero, Option.some.injEq] at hk
            obtain ⟨c, hc, -⟩ := hw
            rw [← hk] at hc
            exact absurd hc (List.not_mem_nil c)
          | succ k' => exact ⟨k', t, by simpa using hk, by omega, hw, hs⟩
      · by_cases hstrip : pyStrip (collapseWs t0) = []
        · have hall : ∀ c ∈ t0, c.isWhitespace = true :=
            (pyStrip_collapseWs_eq_nil_iff t0).mp hstrip
          simp only [extractAux, if_neg hemp, if_pos hstrip]
          rw [ih (i + 1)]
          constructor
          · rintro ⟨k, t, hk, hn, hw, hs⟩
            exact ⟨k + 1, t, by simpa using hk, by omega, hw, hs⟩
          · rintro ⟨k, t, hk, hn, hw, hs⟩
            cases k with
            | zero =>
              simp only [List.getElem?_cons_zero, Option.some.injEq] at hk
              obtain ⟨c, hc, hcw⟩ := hw
              rw [← hk] at hc
              exact absurd (hall c hc) (by simp [hcw])
            | succ k' => exact ⟨k', t, by simpa using hk, by omega, hw, hs⟩
        · have hsome : ∃ c ∈ t0, c.isWhitespace = false := by
            by_contra hno
            push_neg at hno
            exact hstrip ((pyStrip_collapseWs_eq_nil_iff t0).mpr
              (fun c hc => by simpa using hno c hc))
          simp only [extractAux, if_neg hemp, if_neg hstrip]
          constructor
          · intro hmem
            rcases List.mem_cons.mp hmem with h1 | h1
            · obtain ⟨hn, hs⟩ := Prod.mk.injEq .. ▸ h1
              exact ⟨0, t0, by simp, by omega, hsome, by simp [hs]⟩
            · obtain ⟨k, t, hk, hn, hw, hs⟩ := (ih (i + 1) n s).mp h1
              exact ⟨k + 1, t, by simpa using hk, by omega, hw, hs⟩
          · rintro ⟨k, t, hk, hn, hw, hs⟩
            cases k with
            | zero =>
              simp only [List.getElem?_cons_zero, Option.some.injEq] at hk
              subst hk
              subst hs
              have hn' : n = i := by omega
              subst hn'
              exact List.mem_cons_self _ _
            | succ k' =>
              right
              exact (ih (i + 1) n s).mpr ⟨k', t, by simpa using hk, by omega, hw, hs⟩

theorem extractDiagAux_mem :
    ∀ (pages : List (Option (List Char))) (i n : Nat),
      n ∈ extractDiagAux i pages ↔
        ∃ k, (pages[k]? = some none ∨ pages[k]? = some (some [])) ∧ n = i + k := by
  intro pages
  induction pages with
  | nil => intro i n; simp [extractDiagAux]
  | cons pg rest ih =>
    intro i n
    cases pg with
    | none =>
      simp only [extractDiagAux, List.mem_cons]
      rw [ih (i + 1)]
      constructor
      · rintro (rfl | ⟨k, hk, hn⟩)
        · exact ⟨0, Or.inl (by simp), by omega⟩
        · rcases hk with hk | hk
          · exact ⟨k + 1, Or.inl (by simpa using hk), by omega⟩
          · exact ⟨k + 1, Or.inr (by simpa using hk), by omega⟩
      · rintro ⟨k, hk, hn⟩
        cases k with
        | zero => left; omega
        | succ k' =>
          right
          refine ⟨k', ?_, by omega⟩
          rcases hk with hk | hk
          · exact Or.inl (by simpa using hk)
          · exact Or.inr (by simpa using hk)
    | some t0 =>
      by_cases hemp : t0 = []
      · subst hemp
        have hstep : extractDiagAux i (some [] :: rest)
            = i :: extractDiagAux (i + 1) rest := by
          simp [extractDiagAux]
        rw [hstep]
        simp only [List.mem_cons]
        rw [ih (i + 1)]
        constructor
        · rintro (rfl | ⟨k, hk, hn⟩)
          · exact ⟨0, Or.inr (by simp), by omega⟩
          · rcases hk with hk | hk
            · exact ⟨k + 1, Or.inl (by simpa using hk), by omega⟩
            · exact ⟨k + 1, Or.inr (by simpa using hk), by omega⟩
        · rintro ⟨k, hk, hn⟩
          cases k with
          | zero => left; omega
          | succ k' =>
            right
            refine ⟨k', ?_, by omega⟩
            rcases hk with hk | hk
            · exact Or.inl (by simpa using hk)
            · exact Or.inr (by simpa using hk)
      · have hstep : extractDiagAux i (some t0 :: rest)
            = extractDiagAux (i + 1) rest := by
          simp [extractDiagAux, hemp]
        rw [hstep, ih (i + 1)]
        constructor
        · rintro ⟨k, hk, hn⟩
          rcases hk with hk | hk
          · exact ⟨k + 1, Or.inl (by simpa using hk), by omega⟩
          · exact ⟨k + 1, Or.inr (by simpa using hk), by omega⟩
        · rintro ⟨k, hk, hn⟩
          cases k with
          | zero =>
            rcases hk with hk | hk
            · simp at hk
            · simp only [List.getElem?_cons_zero, Option.some.injEq] at hk
              exact absurd hk hemp
          | succ k' =>
            refine ⟨k', ?_, by omega⟩
            rcases hk with hk | hk
            · exact Or.inl (by simpa using hk)
            · exact Or.inr (by simpa using hk)

/-- C7 (amended): `(n, s)` is an extracted page exactly when the `n`-th
page (1-based) has text holding at least one non-whitespace character
and `s` is that text with whitespace collapsed — so empty or
whitespace-only pages are excluded, never a failure — and every included
page's text is in collapsed normal form (single spaces, no adjacent
whitespace). The no-extractable-text diagnostic is printed exactly for
the pages whose raw text is falsy (`None` or empty); a whitespace-only
nonempty page is excluded silently, with no diagnostic. -/
theorem extract_text_filters (pages : List (Option (List Char))) :
    (∀ n s, (n, s) ∈ extract_text_from_pdf pages ↔
        ∃ k t, pages[k]? = some (some t) ∧ n = 1 + k
          ∧ (∃ c ∈ t, c.isWhitespace = false) ∧ s = collapseWs t)
    ∧ (∀ n s, (n, s) ∈ extract_text_from_pdf pages → spaceNormal s)
    ∧ (∀ n, n ∈ extract_text_diagnostics pages ↔
        ∃ k, (pages[k]? = some none ∨ pages[k]? = some (some [])) ∧ n = 1 + k)
    ∧ (∀ k t, pages[k]? = some (some t) → t ≠ [] →
        (∀ c ∈ t, c.isWhitespace = true) →
        (∀ s, (1 + k, s) ∉ extract_text_from_pdf pages)
        ∧ (1 + k) ∉ extract_text_diagnostics pages) := by
  refine ⟨?_, ?_, ?_, ?_⟩
  · intro n s
    exact extractAux_mem pages 1 n s
  · intro n s h
    obtain ⟨k, t, -, -, -, hs⟩ := (extractAux_mem pages 1 n s).mp h
    rw [hs]
    exact collapseWs_spaceNormal t
  · intro n
    exact extractDiagAux_mem pages 1 n
  · intro k t hk htne hall
    constructor
    · intro s hs
      obtain ⟨k2, t2, hk2, hn2, hw2, -⟩ := (extractAux_mem pages 1 (1 + k) s).mp hs
      have hkk : k2 = k := by omega
      subst hkk
      have ht2 : some (some t) = some (some t2) := hk.symm.trans hk2
      simp only [Option.some.injEq] at ht2
      obtain ⟨c, hc, hcw⟩ := hw2
      rw [← ht2] at hc
      exact absurd (hall c hc) (by simp [hcw])
    · intro hd
      obtain ⟨k2, hk2, hn2⟩ := (extractDiagAux_mem pages 1 (1 + k)).mp hd
      have hkk : k2 = k := by omega
      subst hkk
      rcases hk2 with h2 | h2
      · have := hk.symm.trans h2
        simp at this
      · have := hk.symm.trans h2
        simp only [Option.some.injEq] at this
        exact absurd this htne

/-- Three concrete pages: `"  a  b "`, a page with no extractable text,
and a whitespace-only page. -/
def demoPages : List (Option (List Char)) :=
  [some [' ', ' ', 'a', ' ', ' ', 'b', ' '], none, some [' ', ' ', ' ']]

/-- C7 witness: only page 1 survives, as `"a b"`, which the theorem
certifies is whitespace-collapsed; page 2 (no text) is excluded with the
diagnostic, and page 3 (whitespace-only) is excluded with none. -/
theorem extract_text_filters_witness :
    extract_text_from_pdf demoPages = [(1, ['a', ' ', 'b'])]
    ∧ spaceNormal ['a', ' ', 'b']
    ∧ extract_text_diagnostics demoPages = [2]
    ∧ (¬ ∃ s, (2, s) ∈ extract_text_from_pdf demoPages)
    ∧ (∀ s, (3, s) ∉ extract_text_from_pdf demoPages)
    ∧ 3 ∉ extract_text_diagnostics demoPages := by
  have h := extract_text_filters demoPages
  have hsil := h.2.2.2 2 [' ', ' ', ' '] (by decide) (by decide) (by decide)
  refine ⟨by decide, h.2.1 1 ['a', ' ', 'b'] (by decide), by decide, ?_, ?_, ?_⟩
  · rintro ⟨s, hs⟩
    obtain ⟨k, t, hk, hn, hw, -⟩ := (h.1 2 s).mp hs
    have hk1 : k = 1 := by omega
    subst hk1
    simp only [demoPages] at hk
    simp at hk
  · intro s
    exact hsil.1 s
  · exact hsil.2

/-- C7 counterexample to the original claim: the whitespace-only
nonempty page `"   "` is excluded from the extracted page list, yet no
diagnostic is printed for it — the source prints only for falsy text
(`None` or the empty string) — so "excluded with a diagnostic" is false
at this input. -/
theorem extract_text_silent_drop_counterexample :
    extract_text_from_pdf [some [' ', ' ', ' ']] = []
    ∧ extract_text_diagnostics [some [' ', ' ', ' ']] = []
    ∧ 1 ∉ extract_text_diagnostics [some [' ', ' ', ' ']] := by
  decide

/-- Which closing report `read_text_aloud` prints: "No text to read.",
"No pages found starting from page P.", or the normal completion
message after speaking. -/
inductive ReadReport where
  | noText
  | noPagesFrom (p : Nat)
  | finished
deriving DecidableEq

/-- Result of `read_text_aloud`: the pages spoken, in order, and the
closing report. -/
structure ReadResult where
  spoken : List (Nat × List Char)
  report : ReadReport
deriving DecidableEq

/-- Model of `read_text_aloud` (src/pdf-reader-bot.py:121-167): empty input is
reported; with a starting page the list is filtered to page numbers
`≥ start`, and an empty remainder is reported; otherwise each remaining
page is spoken sequentially, in list order. -/
def read_text_aloud (pages : List (Nat × List Char)) (start : Option Nat) : ReadResult :=
  if pages = [] then { spoken := [], report := .noText }
  else
    match start with
    | some p =>
      let filtered := pages.filter fun pr => decide (p ≤ pr.1)
      if filtered = [] then { spoken := [], report := .noPagesFrom p }
      else { spoken := filtered, report := .finished }
    | none => { spoken := pages, report := .finished }

/-- C8: with starting page `P` the reader speaks exactly the pages with
page number `≥ P`, in order; when none qualify it speaks nothing and
returns with a clean report (the "no text" or "no pages" message). -/
theorem read_text_aloud_filters (pages : List (Nat × List Char)) (p : Nat) :
    (read_text_aloud pages (some p)).spoken = pages.filter (fun pr => decide (p ≤ pr.1))
    ∧ (pages.filter (fun pr => decide (p ≤ pr.1)) = [] →
        (read_text_aloud pages (some p)).spoken = []
        ∧ ((read_text_aloud pages (some p)).report = .noText
            ∨ (read_text_aloud pages (some p)).report = .noPagesFrom p)) := by
  by_cases hp : pages = []
  · subst hp
    refine ⟨by simp [read_text_aloud], fun _ => ⟨by simp [read_text_aloud],
      Or.inl (by simp [read_text_aloud])⟩⟩
  · by_cases hf : pages.filter (fun pr => decide (p ≤ pr.1)) = []
    · refine ⟨?_, fun _ => ⟨?_, Or.inr ?_⟩⟩ <;> simp [read_text_aloud, hp, hf]
    · refine ⟨?_, fun hc => absurd hc hf⟩
      simp [read_text_aloud, hp, hf]

/-- Three concrete extracted pages for the reader. -/
def demoSpoken : List (Nat × List Char) := [(1, ['a']), (2, ['b']), (3, ['c'])]

/-- C8 witness: starting from page 2 speaks pages 2 and 3 in order;
starting from page 9 speaks nothing and reports "no pages". -/
theorem read_text_aloud_filters_witness :
    (read_text_aloud demoSpoken (some 2)).spoken
        = demoSpoken.filter (fun pr => decide (2 ≤ pr.1))
    ∧ (read_text_aloud demoSpoken (some 2)).spoken = [(2, ['b']), (3, ['c'])]
    ∧ (read_text_aloud demoSpoken (some 9)).spoken = []
    ∧ ((read_text_aloud demoSpoken (some 9)).report = .noText
        ∨ (read_text_aloud demoSpoken (some 9)).report = .noPagesFrom 9) :=
  ⟨(read_text_aloud_filters demoSpoken 2).1,
   by decide,
   ((read_text_aloud_filters demoSpoken 9).2 (by decide)).1,
   ((read_text_aloud_filters demoSpoken 9).2 (by decide)).2⟩

/-! Voice selection. -/

/-- An installed speech-engine voice: its id and display name. -/
structure Voice where
  id : List Char
  vname : List Char
deriving DecidableEq

/-- Model of Python `str.lower()` (ASCII case folding suffices for the keyword
and extension checks below). -/
def pyLower (l : List Char) : List Char := l.map Char.toLower

/-- Python `needle in hay` on strings: contiguous substring test. -/
def containsSeq (needle hay : List Char) : Bool := decide (needle <:+: hay)

/-- Model of `voice_matches` (src/pdf-reader-bot.py:43-45): lowercase
`v.id + " " + v.name` and test whether any keyword occurs in it. -/
def voice_matches (v : Voice) (keywords : List (List Char)) : Bool :=
  keywords.any fun k => containsSeq (pyLower k) (pyLower (v.id ++ ' ' :: v.vname))

def enKeywords : List (List Char) := [['e', 'n'], ['e', 'n', 'g', 'l', 'i', 's', 'h']]

def frKeywords : List (List Char) :=
  [['f', 'r'], ['f', 'r', 'e', 'n', 'c', 'h'],
   ['f', 'r', 'a', 'n', 'ç', 'a', 'i', 's'], ['f', 'r', 'a', 'n', 'c', 'a', 'i', 's']]

/-- Model of `build_language_voice_map` (src/pdf-reader-bot.py:31-60): the first
voice matching the English keywords becomes the `"en"` entry, the first
matching the French keywords the `"fr"` entry; a language with no match
gets no entry. -/
def build_language_voice_map (voices : List Voice) : List (List Char × List Char) :=
  (match voices.find? (fun v => voice_matches v enKeywords) with
    | some v => [(['e', 'n'], v.id)]
    | none => []) ++
  (match voices.find? (fun v => voice_matches v frKeywords) with
    | some v => [(['f', 'r'], v.id)]
    | none => [])

/-- Python `dict` key lookup (`lang in map` / `map.get(lang)`) on the
association list. -/
def lookupL : List (List Char × List Char) → List Char → Option (List Char)
  | [], _ => none
  | (k, v) :: rest, key => if k = key then some v else lookupL rest key

/-- The `default_lang` constant (src/pdf-reader-bot.py:134). -/
def default_lang : List Char := ['e', 'n']

/-- The per-page voice lookup (src/pdf-reader-bot.py:148-153): if the
detected language has no map entry, fall back to the default language,
then fetch that language's voice id (possibly absent). -/
def page_voice (voiceMap : List (List Char × List Char)) (lang : List Char) :
    Option (List Char) :=
  lookupL voiceMap (if (lookupL voiceMap lang).isSome then lang else default_lang)

/-- The voice the page is actually spoken with
(src/pdf-reader-bot.py:154-156): the looked-up voice id when present and
truthy, else the engine's current (session default) voice. The speaking
path is total — no exception is raised on a missing mapping. -/
def used_voice (voiceMap : List (List Char × List Char)) (lang : List Char)
    (engineVoice : List Char) : List Char :=
  match page_voice voiceMap lang with
  | some v => if v = [] then engineVoice else v
  | none => engineVoice

/-- C6: a page whose detected language has no entry in the session's
language-to-voice map is spoken with the session's default: the lookup
falls back to the default language, and the spoken voice equals the one
used for the default language — with no error (the selection is total). -/
theorem unmapped_language_uses_default (voiceMap : List (List Char × List Char))
    (lang engineVoice : List Char) (h : lookupL voiceMap lang = none) :
    page_voice voiceMap lang = lookupL voiceMap default_lang
    ∧ page_voice voiceMap lang = page_voice voiceMap default_lang
    ∧ used_voice voiceMap lang engineVoice = used_voice voiceMap default_lang engineVoice := by
  have h1 : page_voice voiceMap lang = lookupL voiceMap default_lang := by
    unfold page_voice
    rw [h]
    simp
  have h2 : page_voice voiceMap default_lang = lookupL voiceMap default_lang := by
    unfold page_voice
    by_cases hd : (lookupL voiceMap default_lang).isSome
    · simp [hd]
    · simp [hd]
  refine ⟨h1, by rw [h1, h2], ?_⟩
  unfold used_voice
  rw [h1, h2]

/-- Two installed voices, one English and one French. -/
def demoVoices : List Voice :=
  [⟨['v', '1'], ['E', 'n', 'g', 'l', 'i', 's', 'h']⟩,
   ⟨['v', '2'], ['F', 'r', 'e', 'n', 'c', 'h']⟩]

/-- C6 witness: the session map built from `demoVoices` has no entry for
detected language `"de"`, so the page is spoken with the default
language's voice `v1`. -/
theorem unmapped_language_uses_default_witness :
    page_voice (build_language_voice_map demoVoices) ['d', 'e']
        = page_voice (build_language_voice_map demoVoices) default_lang
    ∧ used_voice (build_language_voice_map demoVoices) ['d', 'e'] ['s', 'y', 's']
        = used_voice (build_language_voice_map demoVoices) default_lang ['s', 'y', 's']
    ∧ used_voice (build_language_voice_map demoVoices) ['d', 'e'] ['s', 'y', 's']
        = ['v', '1'] :=
  ⟨(unmapped_language_uses_default (build_language_voice_map demoVoices)
      ['d', 'e'] ['s', 'y', 's'] (by decide)).2.1,
   (unmapped_language_uses_default (build_language_voice_map demoVoices)
      ['d', 'e'] ['s', 'y', 's'] (by decide)).2.2,
   by decide⟩

/-! Entry-point path vetting. -/

/-- Where `main` (src/pdf-reader-bot.py:169-216) stops: each of the
first three outcomes corresponds to a printed message followed by
`return` before any extraction; `proceeded` carries the extraction the
run goes on to perform. -/
inductive MainOutcome where
  | noFileSelected
  | fileNotFound
  | notAPdf
  | proceeded (extracted : List (Nat × List Char))
deriving DecidableEq

/-- The path vetting of `main` (src/pdf-reader-bot.py:177-193): a falsy
(absent or empty) path, then a nonexistent path, then a path whose
lowercased name does not end in `.pdf`, each prints and returns;
otherwise extraction proceeds on the file's pages. -/
def main_path_checks (pdf_path : Option (List Char)) (pathExists : Bool)
    (pages : List (Option (List Char))) : MainOutcome :=
  match pdf_path with
  | none => .noFileSelected
  | some p =>
    if p = [] then .noFileSelected
    else if pathExists = false then .fileNotFound
    else if hasPdfExt (pyLower p) = false then .notAPdf
    else .proceeded (extract_text_from_pdf pages)

/-- C10: a path whose lowercased name does not end in `.pdf` never
reaches extraction — `main` stops with a printed message — and when the
file exists (and the path is nonempty) the message is precisely the
"not a PDF" one. -/
theorem main_rejects_non_pdf (p : List Char) (ex : Bool)
    (pages : List (Option (List Char))) (h : hasPdfExt (pyLower p) = false) :
    (∀ res, main_path_checks (some p) ex pages ≠ .proceeded res)
    ∧ (p ≠ [] → ex = true → main_path_checks (some p) ex pages = .notAPdf) := by
  constructor
  · intro res
    unfold main_path_checks
    by_cases hp : p = []
    · simp [hp]
    · by_cases hex : ex = false
      · simp [hp, hex]
      · simp [hp, hex, h]
  · intro hp hex
    unfold main_path_checks
    simp [hp, hex, h]

/-- C10 witness: `doc.txt` exists but is rejected with the "not a PDF"
message, and extraction is never attempted. -/
theorem main_rejects_non_pdf_witness :
    main_path_checks (some ['d', 'o', 'c', '.', 't', 'x', 't']) true [] = .notAPdf
    ∧ main_path_checks (some ['d', 'o', 'c', '.', 't', 'x', 't']) true []
        ≠ .proceeded (extract_text_from_pdf []) :=
  ⟨(main_rejects_non_pdf ['d', 'o', 'c', '.', 't', 'x', 't'] true [] (by decide)).2
      (by decide) rfl,
   (main_rejects_non_pdf ['d', 'o', 'c', '.', 't', 'x', 't'] true [] (by decide)).1
      (extract_text_from_pdf [])⟩
